import Mathlib

/-!
Shallow embedding of `scripts/audit-doc-links.py`, a documentation link
auditor.  Strings are modelled as `List Char` (Python strings are sequences
of code points) and filesystem paths as lists of path segments measured from
the filesystem root (Python `pathlib.Path` objects are sequences of parts;
`pathlib` drops empty and `"."` components at construction time and keeps
`".."`).  The filesystem itself is abstracted as an oracle record `FS`, and
the glob enumeration (an I/O action) is abstracted as the input list of
globbed paths.
-/

namespace AuditDocLinks

/-- A Python string: a list of characters. -/
abbrev Str := List Char

/-- A `pathlib.Path`: the list of its parts (segments below the fs root). -/
abbrev FilePath := List Str

/-- The hard-coded `PROJECT_ROOT = Path("/Users/matteoscurati/work/api.8004.dev")`. -/
def PROJECT_ROOT : FilePath :=
  [("Users").data, ("matteoscurati").data, ("work").data, ("api.8004.dev").data]

/-- Embeds `is_external_link`: `link.startswith(('http://', 'https://', 'mailto:'))`. -/
def is_external_link (link : Str) : Bool :=
  ("http://").data.isPrefixOf link || ("https://").data.isPrefixOf link
    || ("mailto:").data.isPrefixOf link

/-- Embeds `is_anchor_only`: `link.startswith('#')`. -/
def is_anchor_only (link : Str) : Bool :=
  match link with
  | '#' :: _ => true
  | _ => false

/-- One attempt of the regex `\[([^\]]+)\]\(([^)]+)\)` at a position right
after a literal `[` was consumed: greedily take the non-`]` label (which must
be non-empty), then require `](`, greedily take the non-`)` destination
(non-empty), then require `)`.  Since each character class excludes exactly
the literal that follows it, the greedy match is the only possible one, so
this deterministic scan agrees with the backtracking regex engine.  Returns
`(label, destination, remaining input)` on success. -/
def tryMatch (rest : Str) : Option (Str × Str × Str) :=
  if (rest.takeWhile (fun c => c ≠ ']')).isEmpty then none
  else
    match rest.dropWhile (fun c => c ≠ ']') with
    | ']' :: '(' :: r2 =>
      if (r2.takeWhile (fun c => c ≠ ')')).isEmpty then none
      else
        match r2.dropWhile (fun c => c ≠ ')') with
        | ')' :: r4 =>
          some (rest.takeWhile (fun c => c ≠ ']'), r2.takeWhile (fun c => c ≠ ')'), r4)
        | _ => none
    | _ => none

/-- The `finditer` scan, with a structural fuel so the kernel can evaluate
it (the fuel strictly dominates the input length at every call, see
`extractAux_fuel`): try each start position left to right, resume after the
end of each match. -/
def extractAux : Nat → Str → List (Str × Str)
  | 0, _ => []
  | _ + 1, [] => []
  | fuel + 1, c :: rest =>
    if c = '[' then
      match tryMatch rest with
      | some (t, d, r') => (t, d) :: extractAux fuel r'
      | none => extractAux fuel rest
    else extractAux fuel rest

/-- Embeds `extract_links`: `re.finditer(r'\[([^\]]+)\]\(([^)]+)\)', content)`,
returning the `(text, link)` pairs in document order.  A match can only start
at a `[`, and at a `[` the deterministic `tryMatch` attempt is exhaustive, so
on failure the scan advances one character exactly as the regex engine
does. -/
def extract_links (content : Str) : List (Str × Str) :=
  extractAux content.length content

/-- Splits a relative-path string into `pathlib` parts: split on `/`, drop
empty and `"."` components (what `PurePath` does at construction). -/
def splitSegs (s : Str) : FilePath :=
  (List.splitOn '/' s).filter (fun seg => !seg.isEmpty && seg ≠ ['.'])

/-- Embeds `pathlib`'s `/` operator for a string right operand: if the string
is absolute it replaces the base, otherwise its parts are appended. -/
def pathJoin (base : FilePath) (s : Str) : FilePath :=
  if s.head? = some '/' then splitSegs s else base ++ splitSegs s

/-- Embeds `Path.resolve()` on an absolute path in a symlink-free tree:
process the parts left to right, `".."` removing the previous part (and
being a no-op at the root), as POSIX path canonicalization does. -/
def resolveSegs (p : FilePath) : FilePath :=
  p.foldl (fun acc seg => if seg = ['.', '.'] then acc.dropLast else acc ++ [seg]) []

/-- Embeds `resolve_link(source_file, link)`: strip the fragment
(`link.split('#')[0]` is the longest `#`-free prefix), return `None` if
nothing is left, resolve against `PROJECT_ROOT` (leading slashes stripped,
as `lstrip('/')` does) when the remainder starts with `/`, and otherwise
against the source file's directory followed by `.resolve()`. -/
def resolve_link (source_file : FilePath) (link : Str) : Option FilePath :=
  let link_path := link.takeWhile (fun c => c ≠ '#')
  if link_path.isEmpty then none
  else
    let source_dir := source_file.dropLast
    if link_path.head? = some '/' then
      some (pathJoin PROJECT_ROOT (link_path.dropWhile (fun c => c = '/')))
    else
      some (resolveSegs (pathJoin source_dir link_path))

/-- Lexicographic strict order on strings by code point, the order Python
uses to compare the parts of two paths. -/
def strLt : Str → Str → Bool
  | [], [] => false
  | [], _ :: _ => true
  | _ :: _, [] => false
  | a :: as, b :: bs => if a < b then true else if b < a then false else strLt as bs

/-- Lexicographic (non-strict) order on paths as part sequences, the order
`sorted()` uses on `pathlib` paths. -/
def pathLe : FilePath → FilePath → Bool
  | [], _ => true
  | _ :: _, [] => false
  | a :: as, b :: bs => if a = b then pathLe as bs else strLt a b

/-- The path order as a decidable relation, for `List.insertionSort`. -/
def PathLe (a b : FilePath) : Prop := pathLe a b = true

instance : DecidableRel PathLe := fun a b => instDecidableEqBool (pathLe a b) true

/-- Embeds `sorted(set(md_files))`: deduplicate, then sort by the path
order. -/
def sortedDedup (files : List FilePath) : List FilePath :=
  (files.dedup).insertionSort PathLe

/-- The filesystem oracle: everything the script asks the OS about paths.
`readFile` returns `none` when `Path.read_text(encoding='utf-8')` raises
(I/O or decode error) and the file's decoded text otherwise. -/
structure FS where
  isFile : FilePath → Bool
  readFile : FilePath → Option Str
  pathExists : FilePath → Bool

/-- One entry of `broken_details`. -/
structure BrokenDetail where
  source : FilePath
  link : Str
  target : FilePath
  text : Str
deriving DecidableEq

/-- One unit of text printed by the script, at the granularity the claims
need: the banner, the per-file read warning, the broken-links block, the
summary, and the final status line. -/
inductive OutEvent where
  | header
  | warnNotRead (file : FilePath)
  | brokenHeader
  | brokenEntry (d : BrokenDetail)
  | summary (files links broken : Nat)
  | statusOk
  | statusBroken (n : Nat)
deriving DecidableEq

/-- The run-local mutable state of `audit_documentation`: the three counters,
the `broken_details` list and the text printed so far. -/
structure AuditState where
  total_files : Nat
  total_links : Nat
  broken_links : Nat
  broken_details : List BrokenDetail
  output : List OutEvent
deriving DecidableEq

/-- Embeds `md_file.relative_to(PROJECT_ROOT)` (total here: the globbed
inputs the script ever feeds it lie under the root, where the two agree). -/
def relToRoot (p : FilePath) : FilePath :=
  if PROJECT_ROOT.isPrefixOf p then p.drop PROJECT_ROOT.length else p

/-- Embeds the stored target
`target.relative_to(PROJECT_ROOT) if target.is_relative_to(PROJECT_ROOT) else target`. -/
def storeTarget (t : FilePath) : FilePath :=
  if PROJECT_ROOT.isPrefixOf t then t.drop PROJECT_ROOT.length else t

/-- Embeds the body of the inner `for text, link in links:` loop. -/
def processLink (fs : FS) (md_file : FilePath) (st : AuditState) (tl : Str × Str) :
    AuditState :=
  if is_external_link tl.2 then st
  else if is_anchor_only tl.2 then st
  else
    let st1 := { st with total_links := st.total_links + 1 }
    match resolve_link md_file tl.2 with
    | none => st1
    | some target =>
      if fs.pathExists target then st1
      else
        { st1 with
            broken_links := st1.broken_links + 1,
            broken_details := st1.broken_details ++
              [⟨relToRoot md_file, tl.2, storeTarget target, tl.1⟩] }

/-- Embeds the body of the outer `for md_file in md_files:` loop: skip
silently if not a regular file, count the file, read it (warn and move on
when the read raises), and fold the link loop over the extracted links. -/
def processFile (fs : FS) (st : AuditState) (md_file : FilePath) : AuditState :=
  if fs.isFile md_file = false then st
  else
    let st1 := { st with total_files := st.total_files + 1 }
    match fs.readFile md_file with
    | none => { st1 with output := st1.output ++ [OutEvent.warnNotRead md_file] }
    | some content => (extract_links content).foldl (processLink fs md_file) st1

/-- Embeds `audit_documentation()`.  `globbed` is the concatenation of the
two `PROJECT_ROOT.glob(...)` results (enumeration order and duplication are
up to the OS; the script normalizes them with `sorted(set(...))`).  Returns
the exit code handed to `exit(...)` together with the final state. -/
def audit_documentation (fs : FS) (globbed : List FilePath) : Nat × AuditState :=
  let init : AuditState := ⟨0, 0, 0, [], [OutEvent.header]⟩
  let md_files := sortedDedup globbed
  let st1 := md_files.foldl (processFile fs) init
  let st2 := { st1 with
    output := st1.output ++
      (if st1.broken_details.isEmpty then []
       else OutEvent.brokenHeader :: st1.broken_details.map OutEvent.brokenEntry) }
  let st3 := { st2 with
    output := st2.output ++ [OutEvent.summary st2.total_files st2.total_links st2.broken_links] }
  if st3.broken_links = 0 then
    (0, { st3 with output := st3.output ++ [OutEvent.statusOk] })
  else
    (1, { st3 with output := st3.output ++ [OutEvent.statusBroken st3.broken_links] })

/-- A sample initial state, used in concrete instantiations. -/
def stEx : AuditState := ⟨0, 0, 0, [], []⟩

/-- Sample markdown file paths under the project root. -/
def pA : FilePath := PROJECT_ROOT ++ [("README.md").data]

/-- Sample markdown file in the docs subtree. -/
def pB : FilePath := PROJECT_ROOT ++ [("docs").data, ("guide.md").data]

/-- A filesystem with no files at all. -/
def fsEmpty : FS := ⟨fun _ => false, fun _ => none, fun _ => false⟩

/-- A markdown file whose read raises (permission or decode error). -/
def fileC6 : FilePath := PROJECT_ROOT ++ [("unreadable.md").data]

/-- A filesystem where `fileC6` is a regular file but reading it fails. -/
def fsC6 : FS := ⟨fun p => p == fileC6, fun _ => none, fun _ => false⟩

/-- A markdown source file `docs/a.md` containing one broken link. -/
def srcC7 : FilePath := PROJECT_ROOT ++ [("docs").data, ("a.md").data]

/-- The resolved absolute target of the broken link in `srcC7`. -/
def tC7 : FilePath := PROJECT_ROOT ++ [("docs").data, ("missing.md").data]

/-- A filesystem where `docs/a.md` holds `[Missing](missing.md)` and the
target does not exist. -/
def fsC7 : FS :=
  ⟨fun p => p == srcC7,
   fun p => if p == srcC7 then some (("[Missing](missing.md)").data) else none,
   fun _ => false⟩

/-- A path enumerated by the glob that vanished before being read. -/
def fileC8 : FilePath := PROJECT_ROOT ++ [("gone.md").data]

theorem tryMatch_some {rest t d r4 : Str} (h : tryMatch rest = some (t, d, r4)) :
    r4.length < rest.length ∧ d ≠ [] ∧ ∀ c ∈ d, ¬ c = ')' := by
  unfold tryMatch at h
  split at h
  · simp at h
  · rename_i htext
    split at h
    · rename_i r2 heq1
      split at h
      · simp at h
      · rename_i hdest
        split at h
        · rename_i r4' heq2
          rw [Option.some_inj, Prod.mk.injEq, Prod.mk.injEq] at h
          obtain ⟨ht, hd, hr⟩ := h
          subst ht hd hr
          refine ⟨?_, ?_, ?_⟩
          · have hlen1 := (List.dropWhile_sublist
              (l := rest) (p := fun c => c ≠ ']')).length_le
            rw [heq1] at hlen1
            simp only [List.length_cons] at hlen1
            have hlen2 := (List.dropWhile_sublist
              (l := r2) (p := fun c => c ≠ ')')).length_le
            rw [heq2] at hlen2
            simp only [List.length_cons] at hlen2
            omega
          · simpa using hdest
          · intro c hc
            have := List.mem_takeWhile_imp hc
            simpa using this
        · simp at h
    · simp at h

/-- The fuel in `extractAux` is irrelevant as long as it bounds the input
length, so `extract_links`'s choice of `content.length` loses nothing. -/
theorem extractAux_fuel : ∀ (fuel fuel' : Nat) (s : Str),
    s.length ≤ fuel → s.length ≤ fuel' → extractAux fuel s = extractAux fuel' s
  | 0, 0, _, _, _ => rfl
  | 0, _ + 1, s, hle, _ => by
    rw [List.length_eq_zero.mp (Nat.le_zero.mp hle)]; rfl
  | _ + 1, 0, s, _, hle' => by
    rw [List.length_eq_zero.mp (Nat.le_zero.mp hle')]; rfl
  | _ + 1, _ + 1, [], _, _ => rfl
  | m + 1, k + 1, c :: rest, hle, hle' => by
    simp only [List.length_cons, Nat.add_le_add_iff_right] at hle hle'
    simp only [extractAux]
    by_cases hc : c = '['
    · simp only [hc, if_true]
      cases htm : tryMatch rest with
      | some tdr =>
        obtain ⟨t, d, r'⟩ := tdr
        have hlt := (tryMatch_some htm).1
        dsimp only
        rw [extractAux_fuel m k r' (by omega) (by omega)]
      | none =>
        rw [extractAux_fuel m k rest hle hle']
    · simp only [hc, if_false]
      rw [extractAux_fuel m k rest hle hle']

theorem extractAux_dest : ∀ (fuel : Nat) (s : Str) {t d : Str},
    (t, d) ∈ extractAux fuel s → d ≠ [] ∧ ∀ c ∈ d, ¬ c = ')'
  | 0, _, _, _, h => by simp [extractAux] at h
  | _ + 1, [], _, _, h => by simp [extractAux] at h
  | fuel + 1, c :: rest, t, d, h => by
    simp only [extractAux] at h
    by_cases hc : c = '['
    · rw [if_pos hc] at h
      cases htm : tryMatch rest with
      | some tdr =>
        obtain ⟨t', d', r'⟩ := tdr
        rw [htm] at h
        dsimp only at h
        rcases List.mem_cons.mp h with he | hm
        · rw [Prod.mk.injEq] at he
          rw [he.2]
          exact ⟨(tryMatch_some htm).2.1, (tryMatch_some htm).2.2⟩
        · exact extractAux_dest fuel r' hm
      | none =>
        rw [htm] at h
        dsimp only at h
        exact extractAux_dest fuel rest h
    · rw [if_neg hc] at h
      exact extractAux_dest fuel rest h

/-- Every destination produced by the link extractor is non-empty and
contains no closing parenthesis: exactly the shape the character class
`[^)]+` guarantees. -/
theorem extract_links_dest {content t d : Str} (h : (t, d) ∈ extract_links content) :
    d ≠ [] ∧ ∀ c ∈ d, ¬ c = ')' :=
  extractAux_dest content.length content h

theorem dropWhile_head_not {p : Char → Bool} : ∀ {l : Str} {a : Char},
    (l.dropWhile p).head? = some a → p a = false
  | [], _, h => by simp at h
  | c :: cs, a, h => by
    by_cases hc : p c
    · rw [List.dropWhile_cons_of_pos hc] at h
      exact dropWhile_head_not h
    · rw [List.dropWhile_cons_of_neg hc] at h
      simp only [List.head?_cons, Option.some_inj] at h
      rw [← h]
      exact Bool.eq_false_iff.mpr hc

theorem takeWhile_hash_self : ∀ (p : Str), '#' ∉ p →
    p.takeWhile (fun c => c ≠ '#') = p
  | [], _ => rfl
  | a :: as, hp => by
    have ha : ¬ a = '#' := fun he => hp (List.mem_cons.mpr (Or.inl he.symm))
    have has : '#' ∉ as := fun hm => hp (List.mem_cons_of_mem a hm)
    rw [List.takeWhile_cons_of_pos (by simpa using ha), takeWhile_hash_self as has]

theorem takeWhile_hash_append : ∀ (p f : Str), '#' ∉ p →
    (p ++ '#' :: f).takeWhile (fun c => c ≠ '#') = p
  | [], f, _ => by
    rw [List.nil_append, List.takeWhile_cons_of_neg (by simp)]
  | a :: as, f, hp => by
    have ha : ¬ a = '#' := fun he => hp (List.mem_cons.mpr (Or.inl he.symm))
    have has : '#' ∉ as := fun hm => hp (List.mem_cons_of_mem a hm)
    rw [List.cons_append, List.takeWhile_cons_of_pos (by simpa using ha),
      takeWhile_hash_append as f has]

theorem strLt_nil_right (b : Str) : strLt b [] = false := by
  cases b <;> rfl

theorem strLt_cons_iff (a b : Char) (as bs : Str) :
    strLt (a :: as) (b :: bs) = true ↔ a < b ∨ (a = b ∧ strLt as bs = true) := by
  rcases lt_trichotomy a b with h | h | h
  · simp [strLt, h]
  · simp [strLt, h, lt_irrefl]
  · simp [strLt, not_lt_of_gt h, h, ne_of_gt h]

theorem strLt_asymm : ∀ {a b : Str}, strLt a b = true → strLt b a = true → False
  | [], _, _, h2 => by simp [strLt_nil_right] at h2
  | _ :: _, [], h1, _ => by simp [strLt_nil_right] at h1
  | a :: as, b :: bs, h1, h2 => by
    rw [strLt_cons_iff] at h1 h2
    rcases h1 with h1 | ⟨h1e, h1r⟩
    · rcases h2 with h2 | ⟨h2e, h2r⟩
      · exact absurd h2 (not_lt_of_gt h1)
      · exact absurd (h2e ▸ h1) (lt_irrefl b)
    · rcases h2 with h2 | ⟨h2e, h2r⟩
      · exact absurd (h1e ▸ h2) (lt_irrefl b)
      · exact strLt_asymm h1r h2r

theorem strLt_trans : ∀ {a b c : Str},
    strLt a b = true → strLt b c = true → strLt a c = true
  | [], _, [], _, h2 => by simp [strLt_nil_right] at h2
  | [], _, _ :: _, _, _ => rfl
  | _ :: _, [], _, h1, _ => by simp [strLt_nil_right] at h1
  | _ :: _, _ :: _, [], _, h2 => by simp [strLt_nil_right] at h2
  | a :: as, b :: bs, c :: cs, h1, h2 => by
    rw [strLt_cons_iff] at h1 h2 ⊢
    rcases h1 with h1 | ⟨h1e, h1r⟩
    · rcases h2 with h2 | ⟨h2e, h2r⟩
      · exact Or.inl (lt_trans h1 h2)
      · exact Or.inl (h2e ▸ h1)
    · rcases h2 with h2 | ⟨h2e, h2r⟩
      · exact Or.inl (h1e ▸ h2)
      · exact Or.inr ⟨h1e.trans h2e, strLt_trans h1r h2r⟩

theorem strLt_connex : ∀ {a b : Str}, a ≠ b → strLt a b = true ∨ strLt b a = true
  | [], [], h => absurd rfl h
  | [], _ :: _, _ => Or.inl rfl
  | _ :: _, [], _ => Or.inr rfl
  | a :: as, b :: bs, h => by
    rcases lt_trichotomy a b with hc | hc | hc
    · exact Or.inl ((strLt_cons_iff a b as bs).2 (Or.inl hc))
    · subst hc
      have hne : as ≠ bs := fun he => h (he ▸ rfl)
      rcases strLt_connex hne with hr | hr
      · exact Or.inl ((strLt_cons_iff a a as bs).2 (Or.inr ⟨rfl, hr⟩))
      · exact Or.inr ((strLt_cons_iff a a bs as).2 (Or.inr ⟨rfl, hr⟩))
    · exact Or.inr ((strLt_cons_iff b a bs as).2 (Or.inl hc))

theorem pathLe_cons_iff (a b : Str) (as bs : FilePath) :
    pathLe (a :: as) (b :: bs) = true ↔
      (a = b ∧ pathLe as bs = true) ∨ (a ≠ b ∧ strLt a b = true) := by
  by_cases h : a = b
  · simp [pathLe, h]
  · simp [pathLe, h]

theorem pathLe_total : ∀ (a b : FilePath), pathLe a b = true ∨ pathLe b a = true
  | [], _ => Or.inl rfl
  | _ :: _, [] => Or.inr rfl
  | a :: as, b :: bs => by
    by_cases h : a = b
    · subst h
      rcases pathLe_total as bs with hr | hr
      · exact Or.inl ((pathLe_cons_iff a a as bs).2 (Or.inl ⟨rfl, hr⟩))
      · exact Or.inr ((pathLe_cons_iff a a bs as).2 (Or.inl ⟨rfl, hr⟩))
    · rcases strLt_connex h with hs | hs
      · exact Or.inl ((pathLe_cons_iff a b as bs).2 (Or.inr ⟨h, hs⟩))
      · exact Or.inr ((pathLe_cons_iff b a bs as).2 (Or.inr ⟨fun he => h he.symm, hs⟩))

theorem pathLe_antisymm : ∀ {a b : FilePath},
    pathLe a b = true → pathLe b a = true → a = b
  | [], [], _, _ => rfl
  | [], _ :: _, _, h2 => by cases h2
  | _ :: _, [], h1, _ => by cases h1
  | a :: as, b :: bs, h1, h2 => by
    rw [pathLe_cons_iff] at h1 h2
    rcases h1 with ⟨h1e, h1r⟩ | ⟨h1e, h1s⟩
    · subst h1e
      rcases h2 with ⟨_, h2r⟩ | ⟨h2e, _⟩
      · rw [pathLe_antisymm h1r h2r]
      · exact absurd rfl h2e
    · rcases h2 with ⟨h2e, _⟩ | ⟨_, h2s⟩
      · exact absurd h2e.symm h1e
      · exact absurd h2s (fun hs => strLt_asymm h1s hs)

theorem pathLe_trans : ∀ {a b c : FilePath},
    pathLe a b = true → pathLe b c = true → pathLe a c = true
  | [], _, _, _, _ => rfl
  | _ :: _, [], _, h1, _ => by cases h1
  | _ :: _, _ :: _, [], _, h2 => by cases h2
  | a :: as, b :: bs, c :: cs, h1, h2 => by
    rw [pathLe_cons_iff] at h1 h2 ⊢
    rcases h1 with ⟨h1e, h1r⟩ | ⟨h1e, h1s⟩
    · rcases h2 with ⟨h2e, h2r⟩ | ⟨h2e, h2s⟩
      · exact Or.inl ⟨h1e.trans h2e, pathLe_trans h1r h2r⟩
      · exact Or.inr ⟨h1e ▸ h2e, h1e ▸ h2s⟩
    · rcases h2 with ⟨h2e, h2r⟩ | ⟨h2e, h2s⟩
      · exact Or.inr ⟨h2e ▸ h1e, h2e ▸ h1s⟩
      · refine Or.inr ⟨?_, strLt_trans h1s h2s⟩
        intro hac
        subst hac
        exact (strLt_asymm h1s h2s).elim

theorem sortedDedup_sorted (g : List FilePath) :
    List.Sorted PathLe (sortedDedup g) := by
  haveI : IsTotal FilePath PathLe := ⟨pathLe_total⟩
  haveI : IsTrans FilePath PathLe := ⟨fun _ _ _ => pathLe_trans⟩
  exact List.sorted_insertionSort PathLe g.dedup

theorem sortedDedup_nodup (g : List FilePath) : (sortedDedup g).Nodup :=
  (List.perm_insertionSort PathLe g.dedup).nodup_iff.2 (List.nodup_dedup g)

theorem sortedDedup_ext {g1 g2 : List FilePath} (h : ∀ x, x ∈ g1 ↔ x ∈ g2) :
    sortedDedup g1 = sortedDedup g2 := by
  have hperm : List.Perm g1.dedup g2.dedup :=
    (List.perm_ext_iff_of_nodup (List.nodup_dedup g1) (List.nodup_dedup g2)).2
      (fun a => by rw [List.mem_dedup, List.mem_dedup]; exact h a)
  have hp : List.Perm (sortedDedup g1) (sortedDedup g2) :=
    ((List.perm_insertionSort PathLe g1.dedup).trans hperm).trans
      (List.perm_insertionSort PathLe g2.dedup).symm
  haveI : IsAntisymm FilePath PathLe := ⟨fun _ _ => pathLe_antisymm⟩
  exact List.eq_of_perm_of_sorted hp (sortedDedup_sorted g1) (sortedDedup_sorted g2)

/-- Claim C1: a completed run returns exit code 0 exactly when the final
broken-link count is 0, exit code 1 exactly when it is at least 1, and no
other exit value. -/
theorem claim_C1_exit_code (fs : FS) (g : List FilePath) :
    ((audit_documentation fs g).2.broken_links = 0 ∧ (audit_documentation fs g).1 = 0) ∨
    (1 ≤ (audit_documentation fs g).2.broken_links ∧ (audit_documentation fs g).1 = 1) := by
  simp only [audit_documentation]
  split
  · rename_i hz
    exact Or.inl ⟨hz, rfl⟩
  · rename_i hnz
    exact Or.inr ⟨Nat.one_le_iff_ne_zero.mpr hnz, rfl⟩

/-- Claim C2: a link whose target starts with `http://`, `https://` or
`mailto:`, or with `#`, is skipped outright: the link loop leaves the whole
state (checked counter, broken counter, broken records, output) unchanged
and never reaches the resolution step. -/
theorem claim_C2_external_anchor_skipped (fs : FS) (md_file : FilePath)
    (st : AuditState) (text link : Str)
    (h : is_external_link link = true ∨ is_anchor_only link = true) :
    processLink fs md_file st (text, link) = st := by
  rcases h with h | h
  · simp [processLink, h]
  · by_cases hext : is_external_link link
    · simp [processLink, hext]
    · simp [processLink, hext, h]

/-- Witness for C2 at the external link `https://example.com/x` and the
anchor-only link `#intro`. -/
theorem claim_C2_witness :
    processLink fsEmpty pA stEx ((("ext").data), (("https://example.com/x").data)) = stEx ∧
    processLink fsEmpty pA stEx ((("anch").data), (("#intro").data)) = stEx :=
  ⟨claim_C2_external_anchor_skipped fsEmpty pA stEx (("ext").data)
      (("https://example.com/x").data) (Or.inl (by decide)),
   claim_C2_external_anchor_skipped fsEmpty pA stEx (("anch").data)
      (("#intro").data) (Or.inr (by decide))⟩

/-- Claim C3: when the fragment-stripped path portion starts with `/`, the
resolver returns the project root joined with the portion minus its leading
slashes (`lstrip('/')`), and the source file's directory plays no role: any
two source files give the same result. -/
theorem claim_C3_root_relative (src src' : FilePath) (link : Str)
    (h : (link.takeWhile (fun c => c ≠ '#')).head? = some '/') :
    resolve_link src link =
      some (PROJECT_ROOT ++ splitSegs
        ((link.takeWhile (fun c => c ≠ '#')).dropWhile (fun c => c = '/'))) ∧
    resolve_link src link = resolve_link src' link := by
  have key : ∀ s : FilePath, resolve_link s link =
      some (PROJECT_ROOT ++ splitSegs
        ((link.takeWhile (fun c => c ≠ '#')).dropWhile (fun c => c = '/'))) := by
    intro s
    have hne : ¬ ((link.takeWhile (fun c => c ≠ '#')).isEmpty = true) := by
      cases hl : link.takeWhile (fun c => c ≠ '#') with
      | nil => rw [hl] at h; cases h
      | cons a l => simp
    have hdw : ¬ ((link.takeWhile (fun c => c ≠ '#')).dropWhile
        (fun c => c = '/')).head? = some '/' := by
      intro hh
      have := dropWhile_head_not hh
      simp at this
    simp only [resolve_link, pathJoin]
    rw [if_neg hne, if_pos h, if_neg hdw]
  exact ⟨key src, (key src).trans (key src').symm⟩

/-- Witness for C3: the root-relative link `/docs/b.md` resolves the same
from `docs/guide.md` and from `README.md`, to root + `docs/b.md`. -/
theorem claim_C3_witness :
    resolve_link pB (("/docs/b.md").data) =
      some (PROJECT_ROOT ++ splitSegs
        (((("/docs/b.md").data).takeWhile (fun c => c ≠ '#')).dropWhile
          (fun c => c = '/'))) ∧
    resolve_link pB (("/docs/b.md").data) = resolve_link pA (("/docs/b.md").data) :=
  claim_C3_root_relative pB pA (("/docs/b.md").data) (by decide)

/-- Claim C4: when the fragment-stripped path portion is non-empty and does
not start with `/`, the resolver joins the source file's directory with the
portion and normalizes `.` (dropped by path construction) and `..` segments
to a canonical absolute path. -/
theorem claim_C4_relative (src : FilePath) (link : Str)
    (h1 : link.takeWhile (fun c => c ≠ '#') ≠ [])
    (h2 : ¬ (link.takeWhile (fun c => c ≠ '#')).head? = some '/') :
    resolve_link src link =
      some (resolveSegs (src.dropLast ++ splitSegs (link.takeWhile (fun c => c ≠ '#')))) := by
  have hne : ¬ ((link.takeWhile (fun c => c ≠ '#')).isEmpty = true) := by
    cases hl : link.takeWhile (fun c => c ≠ '#') with
    | nil => exact absurd hl h1
    | cons a l => simp
  simp only [resolve_link, pathJoin]
  rw [if_neg hne, if_neg h2, if_neg h2]

/-- Witness for C4 at the relative link `../b.md` in `docs/guide.md`. -/
theorem claim_C4_witness :
    resolve_link pB (("../b.md").data) =
      some (resolveSegs (pB.dropLast ++
        splitSegs ((("../b.md").data).takeWhile (fun c => c ≠ '#')))) :=
  claim_C4_relative pB (("../b.md").data) (by decide) (by decide)

/-- Claim C5: the resolver only ever looks at the part of the link before
the first `#` — appending `#fragment` to a `#`-free path changes nothing,
so the fragment influences neither the resolved path nor the existence
check — and when the part before the first `#` is empty it returns none. -/
theorem claim_C5_fragment (src : FilePath) (p f link : Str) :
    ('#' ∉ p → resolve_link src (p ++ '#' :: f) = resolve_link src p) ∧
    (link.takeWhile (fun c => c ≠ '#') = [] → resolve_link src link = none) := by
  constructor
  · intro hp
    simp only [resolve_link, takeWhile_hash_append p f hp, takeWhile_hash_self p hp]
  · intro hl
    simp only [resolve_link]
    rw [hl]
    rfl

/-- Witness for C5: `a.md#sec` resolves exactly as `a.md`, and the
pure-fragment link `#intro` resolves to none. -/
theorem claim_C5_witness :
    resolve_link pB ((("a.md").data) ++ '#' :: (("sec").data)) =
      resolve_link pB (("a.md").data) ∧
    resolve_link pB (("#intro").data) = none :=
  ⟨(claim_C5_fragment pB (("a.md").data) (("sec").data) (("#intro").data)).1 (by decide),
   (claim_C5_fragment pB (("a.md").data) (("sec").data) (("#intro").data)).2 (by decide)⟩

/-- Claim C6 as amended: for a file that is a regular file but whose read
fails, the file loop prints a warning naming the file, counts the file in
the files-scanned counter (the original claim's "contributes 0 to all
counters including files-scanned" is refuted by `claim_C6_counterexample`),
leaves the links-checked and broken-links counters and the broken records
unchanged, processes no links from it, and continues. -/
theorem claim_C6_unreadable_file (fs : FS) (st : AuditState) (p : FilePath)
    (hf : fs.isFile p = true) (hr : fs.readFile p = none) :
    processFile fs st p =
      { st with total_files := st.total_files + 1,
                output := st.output ++ [OutEvent.warnNotRead p] } := by
  simp [processFile, hf, hr]

/-- Counterexample to C6 as stated: a run over exactly one unreadable
markdown file ends with files-scanned = 1, not 0 (the script increments
`total_files` before attempting the read), while the warning is printed and
the other counters stay 0 with exit code 0. -/
theorem claim_C6_counterexample :
    (audit_documentation fsC6 [fileC6]).2.total_files = 1 ∧
    ¬ (audit_documentation fsC6 [fileC6]).2.total_files = 0 ∧
    (audit_documentation fsC6 [fileC6]).2.output =
      [OutEvent.header, OutEvent.warnNotRead fileC6,
       OutEvent.summary 1 0 0, OutEvent.statusOk] := by
  decide

/-- Witness for the amended C6 at the concrete unreadable file. -/
theorem claim_C6_witness :
    processFile fsC6 stEx fileC6 =
      { stEx with total_files := stEx.total_files + 1,
                  output := stEx.output ++ [OutEvent.warnNotRead fileC6] } :=
  claim_C6_unreadable_file fsC6 stEx fileC6 (by decide) (by decide)

/-- Claim C7 as amended: a broken-link record is materialized exactly when a
checked link's resolved target does not exist, and it stores the source file
(relativized to the project root), the raw link target, the link label, and
the resolved target path relativized to the project root when the target
lies under the root (otherwise the absolute path) — not always the absolute
path, as `claim_C7_counterexample` shows. -/
theorem claim_C7_broken_record (fs : FS) (md_file : FilePath) (st : AuditState)
    (text link : Str) (t : FilePath)
    (hext : is_external_link link = false) (hanch : is_anchor_only link = false)
    (hres : resolve_link md_file link = some t) :
    processLink fs md_file st (text, link) =
      if fs.pathExists t then { st with total_links := st.total_links + 1 }
      else { st with total_links := st.total_links + 1,
                     broken_links := st.broken_links + 1,
                     broken_details := st.broken_details ++
                       [⟨relToRoot md_file, link, storeTarget t, text⟩] } := by
  simp [processLink, hext, hanch, hres]

/-- Counterexample to C7 as stated: for the broken link `missing.md` in
`docs/a.md` the resolved absolute target is root + `docs/missing.md`, but
the record stores the relativized path `docs/missing.md`, which is a
different path value. -/
theorem claim_C7_counterexample :
    (audit_documentation fsC7 [srcC7]).2.broken_details.map (fun d => d.target) =
      [[("docs").data, ("missing.md").data]] ∧
    resolve_link srcC7 (("missing.md").data) = some tC7 ∧
    ¬ ([("docs").data, ("missing.md").data] : FilePath) = tC7 := by
  decide

/-- Witness for the amended C7 at the concrete broken link of `fsC7`. -/
theorem claim_C7_witness :
    processLink fsC7 srcC7 stEx ((("Missing").data), (("missing.md").data)) =
      if fsC7.pathExists tC7 then { stEx with total_links := stEx.total_links + 1 }
      else { stEx with total_links := stEx.total_links + 1,
                       broken_links := stEx.broken_links + 1,
                       broken_details := stEx.broken_details ++
                         [⟨relToRoot srcC7, (("missing.md").data),
                           storeTarget tC7, (("Missing").data)⟩] } :=
  claim_C7_broken_record fsC7 srcC7 stEx (("Missing").data) (("missing.md").data) tC7
    (by decide) (by decide) (by decide)

/-- Claim C8 as amended: an enumerated path that is not a regular file at
read time is skipped silently — the state, including the printed output, is
completely unchanged, so in particular it is not counted as scanned; the
original claim's "prints a warning" is refuted by
`claim_C8_counterexample`. -/
theorem claim_C8_vanished_file (fs : FS) (st : AuditState) (p : FilePath)
    (h : fs.isFile p = false) : processFile fs st p = st := by
  simp [processFile, h]

/-- Counterexample to C8 as stated: a run over one enumerated path that is
not a regular file produces no warning at all — the full output is just the
header, the summary and the status line — though the file is indeed skipped
and not counted. -/
theorem claim_C8_counterexample :
    (audit_documentation fsEmpty [fileC8]).2.output =
      [OutEvent.header, OutEvent.summary 0 0 0, OutEvent.statusOk] ∧
    (audit_documentation fsEmpty [fileC8]).2.total_files = 0 := by
  decide

/-- Witness for the amended C8 at the concrete vanished file. -/
theorem claim_C8_witness : processFile fsEmpty stEx fileC8 = stEx :=
  claim_C8_vanished_file fsEmpty stEx fileC8 (by decide)

/-- Claim C9: over a fixed filesystem, the run is a function of the set of
globbed paths only — two enumerations with the same members (any order, any
duplication) give identical counters, records, output and exit code — and
the enumerated markdown file list is duplicate-free and sorted (hence
order-stable). -/
theorem claim_C9_deterministic (fs : FS) (g1 g2 : List FilePath)
    (h : ∀ x, x ∈ g1 ↔ x ∈ g2) :
    audit_documentation fs g1 = audit_documentation fs g2 ∧
    (sortedDedup g1).Nodup ∧ List.Sorted PathLe (sortedDedup g1) := by
  refine ⟨?_, sortedDedup_nodup g1, sortedDedup_sorted g1⟩
  unfold audit_documentation
  rw [sortedDedup_ext h]

/-- Witness for C9: permuting and duplicating the glob enumeration of
`README.md` and `docs/guide.md` changes nothing. -/
theorem claim_C9_witness :
    audit_documentation fsEmpty [pA, pB, pA] = audit_documentation fsEmpty [pB, pA] ∧
    (sortedDedup [pA, pB, pA]).Nodup ∧ List.Sorted PathLe (sortedDedup [pA, pB, pA]) :=
  claim_C9_deterministic fsEmpty [pA, pB, pA] [pB, pA]
    (by intro x; simp only [List.mem_cons, List.not_mem_nil, or_false]; tauto)

/-- Claim C10: a link extracted by the regex has a non-empty target with no
closing parenthesis, and if it is moreover not anchor-only (the only gate
left before resolution besides the external check), the resolver never
returns none — the driver's none-skip branch is unreachable, so every link
that increments the checked counter really has its target tested. -/
theorem claim_C10_none_unreachable (content : Str) (src : FilePath)
    (text link : Str)
    (hmem : (text, link) ∈ extract_links content)
    (hanch : is_anchor_only link = false) :
    link ≠ [] ∧ (∀ c ∈ link, ¬ c = ')') ∧ ∃ t, resolve_link src link = some t := by
  obtain ⟨hne, hnp⟩ := extract_links_dest hmem
  refine ⟨hne, hnp, ?_⟩
  cases link with
  | nil => exact absurd rfl hne
  | cons c l =>
    have hc : ¬ c = '#' := by
      intro he
      subst he
      simp [is_anchor_only] at hanch
    have hne2 : ((c :: l).takeWhile (fun x => x ≠ '#')).isEmpty = false := by
      rw [List.takeWhile_cons_of_pos (by simpa using hc)]
      rfl
    simp only [resolve_link, hne2, Bool.false_eq_true, if_false]
    split
    · exact ⟨_, rfl⟩
    · exact ⟨_, rfl⟩

/-- Witness for C10 at the extracted link `[x](b.md)` in `docs/guide.md`. -/
theorem claim_C10_witness :
    (("b.md").data ≠ []) ∧ (∀ c ∈ ("b.md").data, ¬ c = ')') ∧
    ∃ t, resolve_link pB (("b.md").data) = some t :=
  claim_C10_none_unreachable (("[x](b.md)").data) pB (("x").data) (("b.md").data)
    (by decide) (by decide)

end AuditDocLinks
